import Mathlib

/-!
Verification development for the vanity-wallet searcher in `src/main.py`.

The program brute-forces Solana keypairs in parallel worker processes until
the base-58 address of one of them matches a user-given pattern.  This file
shallowly embeds the program: pure Python functions become Lean functions,
the worker loop becomes structural recursion over the (finite prefix of the)
stream of generated keypairs, the progress dictionary of `display_progress`
becomes an association list with Python-dict update semantics, and the
coordinator `find_wallet_parallel` becomes a function of an explicit
environment (worker keypair streams, result-queue arrival order, interrupt
flag) into an outcome type.

Python's `and` / `or` do not return booleans: they return one of their two
operands, selected by truthiness.  `wallet_matches` relies on them, so its
embedding returns a `PyVal` (a boolean or a string), exactly as the Python
expression does.
-/

/-- A Python value as returned by `wallet_matches`: either a `bool` or a `str`. -/
inductive PyVal where
  | bool : Bool → PyVal
  | str : String → PyVal
deriving DecidableEq

/-- Python truthiness: `bool(b) = b`, `bool(s) = (s != "")`. -/
def pyTruthy : PyVal → Bool
  | PyVal.bool b => b
  | PyVal.str s => !(s == "")

/-- Python `x and y`: returns `x` if `x` is falsy, else `y`. -/
def pyAnd (a b : PyVal) : PyVal :=
  if pyTruthy a then b else a

/-- Python `x or y`: returns `x` if `x` is truthy, else `y`. -/
def pyOr (a b : PyVal) : PyVal :=
  if pyTruthy a then a else b

/-- Python `==` between the values at hand: a `bool` never equals a `str`. -/
def pyEq : PyVal → PyVal → Bool
  | PyVal.bool a, PyVal.bool b => a == b
  | PyVal.str a, PyVal.str b => a == b
  | _, _ => false

/-- Python `s.startswith(p)`. -/
def pyStartswith (s p : String) : Bool :=
  List.isPrefixOf p.data s.data

/-- Python `s.endswith(p)`. -/
def pyEndswith (s p : String) : Bool :=
  List.isSuffixOf p.data s.data

/-- `SHOW_AT_ONCE` from `src/main.py` line 12: the progress batch size. -/
def SHOW_AT_ONCE : Nat := 10000

/-- The `Wallet` dataclass from `src/main.py` lines 15-18. -/
structure Wallet where
  public_key : String
  private_key : String
deriving DecidableEq

/-- `wallet_matches` from `src/main.py` lines 21-24, with Python's operand
returning `and`/`or` semantics:
`(start_pattern and public_key.startswith(start_pattern)) or
 (end_pattern and public_key.endswith(end_pattern))`. -/
def wallet_matches (public_key start_pattern end_pattern : String) : PyVal :=
  pyOr (pyAnd (PyVal.str start_pattern) (PyVal.bool (pyStartswith public_key start_pattern)))
       (pyAnd (PyVal.str end_pattern) (PyVal.bool (pyEndswith public_key end_pattern)))

/-- The base-58 alphabet used by the `base58` library and by Solana addresses. -/
def B58_ALPHABET : List Char :=
  ("123456789ABCDEFGHJKLMNPQRSTUVWXYZabcdefghijkmnopqrstuvwxyz").data

/-- Digit lookup into the base-58 alphabet. -/
def b58Digit (n : Nat) : Char :=
  B58_ALPHABET.getD n ('1')

/-- Big-endian base-58 digits of `n`; `fuel ≥ n` makes the recursion structural. -/
def natToB58 : Nat → Nat → List Char
  | 0, _ => []
  | Nat.succ f, n =>
    if n = 0 then [] else natToB58 f (n / 58) ++ [b58Digit (n % 58)]

/-- The natural number denoted by a big-endian byte string. -/
def bytesToNat (bs : List Nat) : Nat :=
  bs.foldl (fun a b => a * 256 + b % 256) 0

/-- `base58.b58encode(bs).decode()`: one `'1'` per leading zero byte, then the
base-58 digits of the remaining big-endian integer. -/
def b58encode (bs : List Nat) : String :=
  String.mk (List.replicate ((bs.takeWhile (fun b => b == 0)).length) ('1')
    ++ natToB58 (bytesToNat bs) (bytesToNat bs))

/-- Modelled from the spec: the `solders` `Keypair` is an ephemeral value
holding a 32-byte seed (the private key material) and its derived 32-byte
public key; the library itself is not part of this repository's sources. -/
structure Keypair where
  seed : List Nat
  pub : List Nat
  seed_len : seed.length = 32
  pub_len : pub.length = 32

/-- Modelled from the spec: `bytes(keypair)` is the standard 64-byte secret-key
serialization for Ed25519 — the 32-byte seed concatenated with the 32-byte
public key. -/
def keypairBytes (kp : Keypair) : List Nat :=
  kp.seed ++ kp.pub

/-- Modelled from the spec: `str(keypair.pubkey())` is the base-58 textual
address of the 32-byte public key. -/
def pubkeyStr (kp : Keypair) : String :=
  b58encode kp.pub

/-- The wallet a worker builds on a match (`src/main.py` line 51):
`Wallet(public_key, base58.b58encode(bytes(keypair)).decode())`. -/
def mkFoundWallet (kp : Keypair) : Wallet :=
  Wallet.mk (pubkeyStr kp) (b58encode (keypairBytes kp))

/-- Observable behaviour of one run of `find_wallet_worker`: the progress
reports it put on the progress queue, the wallets it put on the result queue,
and the keypairs of its stream it never generated (because it broke out). -/
structure WorkerOut where
  reports : List (Nat × Nat)
  sends : List Wallet
  remaining : List Keypair

/-- The loop body of `find_wallet_worker` (`src/main.py` lines 35-52), run on a
finite prefix `kps` of the stream of keypairs the worker would generate.
`count` is the local attempt counter, `toReport` the value of `to_report`.
Each iteration: `count += 1; to_report -= 1`; generate; if `to_report == 0`
put `(process_id, count)` on the progress queue and reset `to_report`; if the
address matches put the wallet on the result queue and break. -/
def find_wallet_worker_loop (sp ep : String) (pid : Nat) :
    Nat → Nat → List Keypair → WorkerOut
  | _, _, [] => WorkerOut.mk [] [] []
  | count, toReport, kp :: rest =>
    let count' := count + 1
    let toReport' := toReport - 1
    let pk := pubkeyStr kp
    let reps : List (Nat × Nat) := if toReport' = 0 then [(pid, count')] else []
    let toReport'' := if toReport' = 0 then SHOW_AT_ONCE else toReport'
    if pyTruthy (wallet_matches pk sp ep) then
      WorkerOut.mk reps [mkFoundWallet kp] rest
    else
      let o := find_wallet_worker_loop sp ep pid count' toReport'' rest
      WorkerOut.mk (reps ++ o.reports) o.sends o.remaining

/-- `find_wallet_worker` (`src/main.py` lines 27-52): the loop started with
`count = 0` and `to_report = SHOW_AT_ONCE`. -/
def find_wallet_worker (sp ep : String) (pid : Nat) (kps : List Keypair) : WorkerOut :=
  find_wallet_worker_loop sp ep pid 0 SHOW_AT_ONCE kps

/-- Number of loop iterations the worker executes on stream `kps`: it stops at
(and includes) the first matching keypair. -/
def runLength (sp ep : String) : List Keypair → Nat
  | [] => 0
  | kp :: rest =>
    if pyTruthy (wallet_matches (pubkeyStr kp) sp ep) then 1 else runLength sp ep rest + 1

/-- The first keypair of the stream whose address matches the pattern. -/
def firstMatch (sp ep : String) (kps : List Keypair) : Option Keypair :=
  kps.find? (fun kp => pyTruthy (wallet_matches (pubkeyStr kp) sp ep))

/-- The progress reports a worker with id `pid` emits if it executes at least
`m * SHOW_AT_ONCE` iterations: counts `SHOW_AT_ONCE, 2 * SHOW_AT_ONCE, …`. -/
def idealReports (pid m : Nat) : List (Nat × Nat) :=
  (List.range m).map (fun j => (pid, (j + 1) * SHOW_AT_ONCE))

/-- The reports emitted during `n` iterations entered with attempt counter
`count`: one report at every counter value that is a multiple of
`SHOW_AT_ONCE` in `(count, count + n]`. -/
def reportsSeg (pid : Nat) : Nat → Nat → List (Nat × Nat)
  | _, 0 => []
  | count, Nat.succ n =>
    (if (count + 1) % SHOW_AT_ONCE = 0 then [(pid, count + 1)] else []) ++
      reportsSeg pid (count + 1) n

/-- Python dict assignment `d[k] = v`: overwrite the binding in place if the
key is present, else append it. -/
def dictUpdate : List (Nat × Nat) → Nat → Nat → List (Nat × Nat)
  | [], k, v => [(k, v)]
  | (k', v') :: rest, k, v =>
    if k' = k then (k, v) :: rest else (k', v') :: dictUpdate rest k v

/-- Python `d.get(k)`. -/
def dictLookup (d : List (Nat × Nat)) (k : Nat) : Option Nat :=
  (d.find? (fun p => p.1 == k)).map Prod.snd

/-- Python `sum(d.values())`. -/
def dictTotal (d : List (Nat × Nat)) : Nat :=
  (d.map Prod.snd).sum

/-- The initial progress dict of `display_progress` (`src/main.py` line 60):
`{i + 1: 0 for i in range(num_processes)}`. -/
def init_progress (n : Nat) : List (Nat × Nat) :=
  (List.range n).map (fun i => (i + 1, 0))

/-- The receive loop of `display_progress` (`src/main.py` lines 63-76) folded
over a finite sequence of received reports: each `(process_id, count)` report
executes `progress[process_id] = count`. -/
def process_reports (d : List (Nat × Nat)) (reps : List (Nat × Nat)) : List (Nat × Nat) :=
  reps.foldl (fun acc r => dictUpdate acc r.1 r.2) d

/-- The last count reported for worker id `i` in `reps`, `0` if it never
reported. -/
def lastReported (reps : List (Nat × Nat)) (i : Nat) : Nat :=
  reps.foldl (fun a r => if r.1 = i then r.2 else a) 0

/-- Terminal outcome of `find_wallet_parallel`.  `found`, `cancelled` and
`blocked` are the behaviours of the code (return a wallet; exit on
KeyboardInterrupt; block forever in `result_queue.get()`).  `configError` and
`exhausted` are outcomes the specification describes — synchronous rejection
of a bad configuration, and a distinct error when all workers died — used to
state those claims against the code. -/
inductive SearchOutcome where
  | found : Wallet → SearchOutcome
  | cancelled : SearchOutcome
  | blocked : SearchOutcome
  | configError : SearchOutcome
  | exhausted : SearchOutcome
deriving DecidableEq

/-- Number of worker processes spawned (`src/main.py` lines 83-99):
`num_processes` if given (Python `range` of a negative int is empty), else
`multiprocessing.cpu_count()`. -/
def numWorkers (np : Option Int) (cpu : Nat) : Nat :=
  match np with
  | none => cpu
  | some z => z.toNat

/-- The worker ids `i + 1 for i in range(num_processes)`. -/
def spawnedIds (np : Option Int) (cpu : Nat) : List Nat :=
  (List.range (numWorkers np cpu)).map (fun i => i + 1)

/-- The contents of the shared result queue, in arrival order: `order` lists
worker ids in the order their sends arrive; only spawned workers can send. -/
def resultChannel (sp ep : String) (np : Option Int) (cpu : Nat)
    (streams : Nat → List Keypair) (order : List Nat) : List Wallet :=
  ((order.filter (fun i => (spawnedIds np cpu).contains i)).map
    (fun i => (find_wallet_worker sp ep i (streams i)).sends)).flatten

/-- `find_wallet_parallel` (`src/main.py` lines 81-121): spawns the workers,
then blocks in `result_queue.get()`.  If a KeyboardInterrupt arrives it
terminates everything and exits without a wallet (`cancelled`); otherwise the
first wallet to arrive on the result queue is returned (`found`); if nothing
ever arrives the call blocks forever (`blocked`).  No other outcome exists in
the code: in particular it never validates the configuration and never
reports exhaustion. -/
def find_wallet_parallel (sp ep : String) (np : Option Int) (cpu : Nat)
    (streams : Nat → List Keypair) (order : List Nat) (intr : Bool) : SearchOutcome :=
  if intr then
    SearchOutcome.cancelled
  else
    match (resultChannel sp ep np cpu streams order).head? with
    | some w => SearchOutcome.found w
    | none => SearchOutcome.blocked

/-- The character class of the regex `^[1-9A-HJ-NP-Za-km-z]+$` in
`is_valid_pattern` (`src/main.py` line 131). -/
def isB58RegexChar (c : Char) : Bool :=
  decide ((('1') ≤ c ∧ c ≤ ('9')) ∨ (('A') ≤ c ∧ c ≤ ('H')) ∨ (('J') ≤ c ∧ c ≤ ('N')) ∨
    (('P') ≤ c ∧ c ≤ ('Z')) ∨ (('a') ≤ c ∧ c ≤ ('k')) ∨ (('m') ≤ c ∧ c ≤ ('z')))

/-- `is_valid_pattern` (`src/main.py` lines 130-132): `re.fullmatch` of the
regex above, i.e. the string is non-empty and every character is in the
class. -/
def is_valid_pattern (s : String) : Bool :=
  !s.data.isEmpty && s.data.all isB58RegexChar

/-- The base-58 alphabet as the claim describes it: digits 1-9 and Latin
letters A-Z/a-z excluding `0`, `O`, `I` and `l`. -/
def base58DescChar (c : Char) : Bool :=
  decide ((('1') ≤ c ∧ c ≤ ('9')) ∨
    (((('A') ≤ c ∧ c ≤ ('Z')) ∨ (('a') ≤ c ∧ c ≤ ('z'))) ∧
      c ≠ ('0') ∧ c ≠ ('O') ∧ c ≠ ('I') ∧ c ≠ ('l')))

/-- A concrete keypair: all-zero seed and public key.  Its address is the
base-58 rendering of 32 zero bytes, the string of 32 `'1'` characters. -/
def kpZero : Keypair :=
  Keypair.mk (List.replicate 32 0) (List.replicate 32 0) rfl rfl

/-! ## Helper lemmas: the matcher -/

lemma char_le_iff (a b : Char) : a ≤ b ↔ a.toNat ≤ b.toNat := Iff.rfl

lemma char_eq_iff (a b : Char) : a = b ↔ a.toNat = b.toNat := by
  constructor
  · intro h; rw [h]
  · intro h
    have hv : a.val = b.val := by
      apply UInt32.ext
      simpa [Char.toNat] using h
    exact Char.eq_of_val_eq hv

lemma b58_char_class (c : Char) : isB58RegexChar c = base58DescChar c := by
  simp only [isB58RegexChar, base58DescChar, decide_eq_decide, ne_eq, char_le_iff, char_eq_iff]
  simp only [show ('1').toNat = 49 from rfl, show ('9').toNat = 57 from rfl,
    show ('A').toNat = 65 from rfl, show ('H').toNat = 72 from rfl,
    show ('J').toNat = 74 from rfl, show ('N').toNat = 78 from rfl,
    show ('P').toNat = 80 from rfl, show ('Z').toNat = 90 from rfl,
    show ('a').toNat = 97 from rfl, show ('k').toNat = 107 from rfl,
    show ('m').toNat = 109 from rfl, show ('z').toNat = 122 from rfl,
    show ('0').toNat = 48 from rfl, show ('O').toNat = 79 from rfl,
    show ('I').toNat = 73 from rfl, show ('l').toNat = 108 from rfl]
  omega

lemma is_valid_pattern_iff (s : String) :
    is_valid_pattern s = true ↔ (s.data ≠ [] ∧ ∀ c ∈ s.data, base58DescChar c = true) := by
  simp [is_valid_pattern, List.all_eq_true, List.isEmpty_iff, b58_char_class]

/-! ## Claim theorems: the matcher (C2, C3) -/

/-- C2, counterexample: for the pattern with prefix `"A"` only and the address
`"B"`, `wallet_matches` does not equal `"B".startswith("A")` (which is the
boolean `False`): Python's `or` hands back the falsy second operand `""`, a
string, and `'' == False` is `False` in Python. -/
theorem wallet_matches_startswith_cex :
    wallet_matches ("B") ("A") ("") ≠ PyVal.bool (pyStartswith ("B") ("A")) ∧
    wallet_matches ("B") ("A") ("") = PyVal.str ("") ∧
    pyEq (wallet_matches ("B") ("A") ("")) (PyVal.bool (pyStartswith ("B") ("A"))) = false := by
  refine ⟨by decide, by decide, by decide⟩

/-- C2, amended: with only the prefix set, the truthiness of `wallet_matches`
equals `address.startswith(prefix)` (the exact value is the boolean `True` on
a match but the falsy string `""` otherwise); with only the suffix set,
`wallet_matches` returns exactly the boolean `address.endswith(suffix)`; in
general `wallet_matches` returns the boolean `True` iff (prefix non-empty and
address starts with it) or (suffix non-empty and address ends with it), and a
falsy value otherwise. -/
theorem wallet_matches_truthiness :
    (∀ a p : String, p ≠ ("") → pyTruthy (wallet_matches a p ("")) = pyStartswith a p) ∧
    (∀ a q : String, q ≠ ("") → wallet_matches a ("") q = PyVal.bool (pyEndswith a q)) ∧
    (∀ a p q : String, wallet_matches a p q = PyVal.bool true ↔
      ((p ≠ ("") ∧ pyStartswith a p = true) ∨ (q ≠ ("") ∧ pyEndswith a q = true))) := by
  refine ⟨?_, ?_, ?_⟩
  · intro a p hp
    cases hs : pyStartswith a p <;>
      simp [wallet_matches, pyAnd, pyOr, pyTruthy, hs, hp]
  · intro a q hq
    simp [wallet_matches, pyAnd, pyOr, pyTruthy, hq]
  · intro a p q
    by_cases hp : p = ("") <;> by_cases hq : q = ("") <;>
      cases hs : pyStartswith a p <;> cases he : pyEndswith a q <;>
        simp [wallet_matches, pyAnd, pyOr, pyTruthy, hp, hq, hs, he]

/-- Witness for `wallet_matches_truthiness` at concrete inputs. -/
theorem wallet_matches_truthiness_witness :
    pyTruthy (wallet_matches ("AB") ("A") ("")) = pyStartswith ("AB") ("A") ∧
    wallet_matches ("xB") ("") ("B") = PyVal.bool (pyEndswith ("xB") ("B")) ∧
    wallet_matches ("AB") ("A") ("") = PyVal.bool true :=
  ⟨wallet_matches_truthiness.1 ("AB") ("A") (by decide),
   wallet_matches_truthiness.2.1 ("xB") ("B") (by decide),
   (wallet_matches_truthiness.2.2 ("AB") ("A") ("")).mpr (Or.inl ⟨by decide, by decide⟩)⟩

/-- C3, counterexample: with both patterns empty, `wallet_matches("abc")` is
not the boolean `False`: it is the empty string, and Python's
`wallet_matches("abc", "", "") == False` evaluates to `False`. -/
theorem wallet_matches_empty_cex :
    wallet_matches ("abc") ("") ("") ≠ PyVal.bool false ∧
    pyEq (wallet_matches ("abc") ("") ("")) (PyVal.bool false) = false := by
  refine ⟨by decide, by decide⟩

/-- C3, amended: with both patterns empty, `wallet_matches` returns the empty
string `""` for every address — a falsy value (its truthiness is false), but
not the boolean `False`. -/
theorem wallet_matches_empty_falsy (a : String) :
    wallet_matches a ("") ("") = PyVal.str ("") ∧
    pyTruthy (wallet_matches a ("") ("")) = false :=
  ⟨rfl, rfl⟩

/-! ## Claim theorem: the pattern validator (C7) -/

/-- C7: `is_valid_pattern` accepts a string iff it is non-empty and every
character is in the base-58 alphabet (digits 1-9 and Latin letters A-Z/a-z
excluding `0`, `O`, `I`, `l`); in particular every string containing `'0'` is
rejected. -/
theorem is_valid_pattern_spec :
    (∀ s : String, is_valid_pattern s = true ↔
      (s.data ≠ [] ∧ ∀ c ∈ s.data, base58DescChar c = true)) ∧
    (∀ s : String, ('0') ∈ s.data → is_valid_pattern s = false) := by
  refine ⟨is_valid_pattern_iff, ?_⟩
  intro s h0
  cases hv : is_valid_pattern s
  · rfl
  · exfalso
    have h := ((is_valid_pattern_iff s).mp hv).2 ('0') h0
    exact absurd h (by decide)

/-- Witness for `is_valid_pattern_spec` at concrete inputs. -/
theorem is_valid_pattern_spec_witness :
    is_valid_pattern ("0") = false ∧ is_valid_pattern ("A1z") = true :=
  ⟨is_valid_pattern_spec.2 ("0") (by decide),
   (is_valid_pattern_spec.1 ("A1z")).mpr ⟨by decide, by decide⟩⟩

/-! ## Helper lemmas: the worker loop -/

lemma worker_loop_cons (sp ep : String) (pid count toReport : Nat) (kp : Keypair)
    (rest : List Keypair) :
    find_wallet_worker_loop sp ep pid count toReport (kp :: rest) =
      if pyTruthy (wallet_matches (pubkeyStr kp) sp ep) then
        WorkerOut.mk (if toReport - 1 = 0 then [(pid, count + 1)] else [])
          [mkFoundWallet kp] rest
      else
        let o := find_wallet_worker_loop sp ep pid (count + 1)
          (if toReport - 1 = 0 then SHOW_AT_ONCE else toReport - 1) rest
        WorkerOut.mk ((if toReport - 1 = 0 then [(pid, count + 1)] else []) ++ o.reports)
          o.sends o.remaining := rfl

/-- Characterization of the worker loop entered with attempt counter `count`
and `to_report = SHOW_AT_ONCE - count % SHOW_AT_ONCE` (the loop invariant):
its progress reports are exactly the counter values in `(count, count + n]`
divisible by `SHOW_AT_ONCE` (`n` being the number of iterations executed), it
sends exactly the wallet of the first matching keypair (nothing when none
matches), and it stops right after the first match. -/
lemma worker_loop_eq (sp ep : String) (pid : Nat) (kps : List Keypair) :
    ∀ count : Nat,
      find_wallet_worker_loop sp ep pid count (SHOW_AT_ONCE - count % SHOW_AT_ONCE) kps =
        WorkerOut.mk (reportsSeg pid count (runLength sp ep kps))
          ((firstMatch sp ep kps).elim [] (fun kp => [mkFoundWallet kp]))
          (kps.drop (runLength sp ep kps)) := by
  induction kps with
  | nil => intro count; rfl
  | cons kp rest ih =>
    intro count
    rw [worker_loop_cons]
    by_cases hm : pyTruthy (wallet_matches (pubkeyStr kp) sp ep) = true
    · have hrl : runLength sp ep (kp :: rest) = 1 := by simp [runLength, hm]
      have hfind : firstMatch sp ep (kp :: rest) = some kp :=
        List.find?_cons_of_pos _ hm
      by_cases hr : (count + 1) % SHOW_AT_ONCE = 0
      · have h1 : SHOW_AT_ONCE - count % SHOW_AT_ONCE - 1 = 0 := by
          simp only [SHOW_AT_ONCE] at hr ⊢; omega
        simp [hm, hrl, hfind, reportsSeg, hr, h1]
      · have h1 : ¬(SHOW_AT_ONCE - count % SHOW_AT_ONCE - 1 = 0) := by
          simp only [SHOW_AT_ONCE] at hr ⊢; omega
        simp [hm, hrl, hfind, reportsSeg, hr, h1]
    · have hm' : pyTruthy (wallet_matches (pubkeyStr kp) sp ep) = false := by
        cases h : pyTruthy (wallet_matches (pubkeyStr kp) sp ep)
        · rfl
        · exact absurd h hm
      have hrl : runLength sp ep (kp :: rest) = runLength sp ep rest + 1 := by
        simp [runLength, hm']
      have hfind : firstMatch sp ep (kp :: rest) = firstMatch sp ep rest := by
        simp only [firstMatch]
        exact List.find?_cons_of_neg _ (by simp [hm'])
      by_cases hr : (count + 1) % SHOW_AT_ONCE = 0
      · have h1 : SHOW_AT_ONCE - count % SHOW_AT_ONCE - 1 = 0 := by
          simp only [SHOW_AT_ONCE] at hr ⊢; omega
        have harg : SHOW_AT_ONCE - (count + 1) % SHOW_AT_ONCE = SHOW_AT_ONCE := by
          rw [hr, Nat.sub_zero]
        have ih' := ih (count + 1)
        rw [harg] at ih'
        simp [hm', hrl, hfind, reportsSeg, hr, h1, ih']
      · have h1 : ¬(SHOW_AT_ONCE - count % SHOW_AT_ONCE - 1 = 0) := by
          simp only [SHOW_AT_ONCE] at hr ⊢; omega
        have harg : SHOW_AT_ONCE - (count + 1) % SHOW_AT_ONCE =
            SHOW_AT_ONCE - count % SHOW_AT_ONCE - 1 := by
          simp only [SHOW_AT_ONCE] at hr ⊢; omega
        have ih' := ih (count + 1)
        rw [harg] at ih'
        simp [hm', hrl, hfind, reportsSeg, hr, h1, ih']

/-- `find_wallet_worker` in closed form. -/
lemma worker_eq (sp ep : String) (pid : Nat) (kps : List Keypair) :
    find_wallet_worker sp ep pid kps =
      WorkerOut.mk (reportsSeg pid 0 (runLength sp ep kps))
        ((firstMatch sp ep kps).elim [] (fun kp => [mkFoundWallet kp]))
        (kps.drop (runLength sp ep kps)) :=
  worker_loop_eq sp ep pid kps 0

lemma worker_sends_eq (sp ep : String) (pid : Nat) (kps : List Keypair) :
    (find_wallet_worker sp ep pid kps).sends =
      (firstMatch sp ep kps).elim [] (fun kp => [mkFoundWallet kp]) := by
  rw [worker_eq]

lemma seg_closed (pid : Nat) : ∀ (n count : Nat),
    reportsSeg pid count n =
      ((List.range' (count + 1) n).filter (fun c => c % SHOW_AT_ONCE == 0)).map
        (fun c => (pid, c)) := by
  intro n
  induction n with
  | zero => intro count; rfl
  | succ n ih =>
    intro count
    rw [List.range'_succ]
    by_cases hr : (count + 1) % SHOW_AT_ONCE = 0
    · simp [reportsSeg, List.filter_cons, hr, ih (count + 1)]
    · simp [reportsSeg, List.filter_cons, hr, ih (count + 1)]

lemma range'_filter_ideal (pid : Nat) : ∀ n : Nat,
    ((List.range' 1 n).filter (fun c => c % SHOW_AT_ONCE == 0)).map (fun c => (pid, c)) =
      idealReports pid (n / SHOW_AT_ONCE) := by
  intro n
  induction n with
  | zero => rfl
  | succ n ih =>
    rw [List.range'_concat, List.filter_append, List.map_append, ih]
    by_cases hr : (n + 1) % SHOW_AT_ONCE = 0
    · have hd : (n + 1) / SHOW_AT_ONCE = n / SHOW_AT_ONCE + 1 := by
        simp only [SHOW_AT_ONCE] at hr ⊢; omega
      have hmul : (n / SHOW_AT_ONCE + 1) * SHOW_AT_ONCE = n + 1 := by
        simp only [SHOW_AT_ONCE] at hr ⊢; omega
      rw [hd]
      simp [idealReports, List.range_succ, List.filter_cons, Nat.add_comm 1 n, hr, hmul]
    · have hd : (n + 1) / SHOW_AT_ONCE = n / SHOW_AT_ONCE := by
        simp only [SHOW_AT_ONCE] at hr ⊢; omega
      simp [hd, List.filter_cons, Nat.add_comm 1 n, hr]

lemma worker_reports_ideal (sp ep : String) (pid : Nat) (kps : List Keypair) :
    (find_wallet_worker sp ep pid kps).reports =
      idealReports pid (runLength sp ep kps / SHOW_AT_ONCE) := by
  rw [worker_eq]
  show reportsSeg pid 0 (runLength sp ep kps) = _
  rw [seg_closed]
  exact range'_filter_ideal pid (runLength sp ep kps)

/-! ## Claim theorem: worker progress reports (C6) -/

/-- C6: a worker emits a progress report exactly on the iterations where its
attempt counter is a positive multiple of `SHOW_AT_ONCE = 10000`, and the
reported pair is `(process_id, counter)`: over the `runLength` iterations it
executes, its reports are exactly
`(pid, 10000), (pid, 20000), …, (pid, (runLength / 10000) * 10000)`,
each emitted once, in order. -/
theorem worker_progress_reports :
    SHOW_AT_ONCE = 10000 ∧
    ∀ (sp ep : String) (pid : Nat) (kps : List Keypair),
      (find_wallet_worker sp ep pid kps).reports =
        idealReports pid (runLength sp ep kps / SHOW_AT_ONCE) :=
  ⟨rfl, worker_reports_ideal⟩

/-! ## Helper lemmas: the progress dictionary -/

/-- The key list `[1, …, n]` of the progress dict. -/
def keysList (n : Nat) : List Nat :=
  (List.range n).map (fun i => i + 1)

/-- `lastReported` generalized to an arbitrary initial assignment `f`. -/
def lastRepFrom (f : Nat → Nat) (reps : List (Nat × Nat)) (i : Nat) : Nat :=
  reps.foldl (fun a r => if r.1 = i then r.2 else a) (f i)

lemma init_progress_eq (n : Nat) :
    init_progress n = (keysList n).map (fun i => (i, 0)) := by
  simp [init_progress, keysList, List.map_map]

lemma keysList_nodup (n : Nat) : (keysList n).Nodup :=
  (List.nodup_range n).map (fun a b h => by omega)

lemma keysList_mem (n i : Nat) : i ∈ keysList n ↔ 1 ≤ i ∧ i ≤ n := by
  simp only [keysList, List.mem_map, List.mem_range]
  constructor
  · rintro ⟨a, ha, rfl⟩; omega
  · intro h; exact ⟨i - 1, by omega, by omega⟩

lemma dictUpdate_map (l : List Nat) (f : Nat → Nat) (k v : Nat) (hnd : l.Nodup)
    (hk : k ∈ l) :
    dictUpdate (l.map fun i => (i, f i)) k v =
      l.map fun i => (i, if i = k then v else f i) := by
  induction l with
  | nil => cases hk
  | cons a l ih =>
    rw [List.map_cons, List.map_cons]
    by_cases hak : a = k
    · subst hak
      have hnotin : a ∉ l := (List.nodup_cons.mp hnd).1
      simp only [dictUpdate, if_pos rfl]
      refine List.cons_eq_cons.mpr ⟨by simp, ?_⟩
      refine (List.map_congr_left ?_)
      intro i hi
      have : i ≠ a := fun h => hnotin (h ▸ hi)
      simp [this]
    · have hkl : k ∈ l := by
        rcases List.mem_cons.mp hk with h | h
        · exact absurd h.symm hak
        · exact h
      simp only [dictUpdate, if_neg hak]
      rw [ih (List.nodup_cons.mp hnd).2 hkl]

lemma process_reports_map (l : List Nat) (hnd : l.Nodup) :
    ∀ (reps : List (Nat × Nat)) (f : Nat → Nat), (∀ r ∈ reps, r.1 ∈ l) →
      process_reports (l.map fun i => (i, f i)) reps =
        l.map fun i => (i, lastRepFrom f reps i) := by
  intro reps
  induction reps with
  | nil =>
    intro f h
    simp [process_reports, lastRepFrom]
  | cons r rs ih =>
    intro f h
    have hr1 : r.1 ∈ l := h r (List.mem_cons_self r rs)
    have hstep : process_reports (l.map fun i => (i, f i)) (r :: rs) =
        process_reports (dictUpdate (l.map fun i => (i, f i)) r.1 r.2) rs := rfl
    rw [hstep, dictUpdate_map l f r.1 r.2 hnd hr1,
        ih (fun i => if i = r.1 then r.2 else f i) (fun x hx => h x (List.mem_cons_of_mem r hx))]
    refine List.map_congr_left ?_
    intro i _
    have hinit : lastRepFrom f (r :: rs) i =
        lastRepFrom (fun j => if j = r.1 then r.2 else f j) rs i := by
      simp only [lastRepFrom, List.foldl_cons]
      by_cases hir : r.1 = i
      · subst hir; simp
      · have : ¬(i = r.1) := fun h => hir h.symm
        simp [hir, this]
    rw [hinit]

lemma dictLookup_map_mem (l : List Nat) (g : Nat → Nat) (k : Nat) (hk : k ∈ l) :
    dictLookup (l.map fun i => (i, g i)) k = some (g k) := by
  induction l with
  | nil => cases hk
  | cons a l ih =>
    by_cases hak : a = k
    · subst hak
      simp [dictLookup, List.find?_cons]
    · have hkl : k ∈ l := by
        rcases List.mem_cons.mp hk with h | h
        · exact absurd h.symm hak
        · exact h
      have : (a == k) = false := by simp [hak]
      simp only [dictLookup, List.map_cons, List.find?_cons, this]
      exact ih hkl

lemma dictLookup_map_not_mem (l : List Nat) (g : Nat → Nat) (k : Nat) (hk : k ∉ l) :
    dictLookup (l.map fun i => (i, g i)) k = none := by
  induction l with
  | nil => rfl
  | cons a l ih =>
    have hak : ¬(a = k) := fun h => hk (h ▸ List.mem_cons_self a l)
    have : (a == k) = false := by simp [hak]
    simp only [dictLookup, List.map_cons, List.find?_cons, this]
    exact ih (fun h => hk (List.mem_cons_of_mem a h))

lemma dictTotal_map (l : List Nat) (g : Nat → Nat) :
    dictTotal (l.map fun i => (i, g i)) = (l.map g).sum := by
  simp [dictTotal, List.map_map]
  rfl

lemma list_sum_range (g : Nat → Nat) : ∀ n : Nat,
    ((List.range n).map g).sum = ∑ i in Finset.range n, g i := by
  intro n
  induction n with
  | zero => rfl
  | succ n ih => rw [List.range_succ, Finset.sum_range_succ, List.map_append, List.sum_append, ih]; simp

lemma sum_Icc_list (g : Nat → Nat) (N : Nat) :
    (∑ i in Finset.Icc 1 N, g i) = ((List.range N).map (fun i => g (i + 1))).sum := by
  induction N with
  | zero => simp
  | succ n ih =>
    rw [Finset.sum_Icc_succ_top (by omega), ih, List.range_succ]
    simp

lemma process_reports_total (N : Nat) (reps : List (Nat × Nat))
    (h : ∀ r ∈ reps, 1 ≤ r.1 ∧ r.1 ≤ N) :
    dictTotal (process_reports (init_progress N) reps) =
      ∑ i in Finset.Icc 1 N, lastReported reps i := by
  have hmem : ∀ r ∈ reps, r.1 ∈ keysList N := fun r hr => (keysList_mem N r.1).mpr (h r hr)
  rw [init_progress_eq,
      process_reports_map (keysList N) (keysList_nodup N) reps (fun _ => 0) hmem,
      dictTotal_map, sum_Icc_list]
  simp only [keysList, List.map_map]
  rfl

/-! ## Claim theorem: progress aggregation (C5) -/

/-- C5: `display_progress` initializes every configured worker id `1..N` to
counter `0`; each received report `(process_id, count)` overwrites exactly
that worker's entry; and after any finite sequence of reports (all carrying
configured worker ids, as real workers do) the rendered cumulative total
`sum(progress.values())` equals the sum, over all worker ids, of the last
count each id reported (zero for ids that never reported). -/
theorem display_progress_total (N : Nat) (reps : List (Nat × Nat))
    (h : ∀ r ∈ reps, 1 ≤ r.1 ∧ r.1 ≤ N) :
    dictTotal (process_reports (init_progress N) reps) =
      (∑ i in Finset.Icc 1 N, lastReported reps i) ∧
    (∀ i, 1 ≤ i → i ≤ N → dictLookup (init_progress N) i = some 0) ∧
    (∀ k v i, 1 ≤ k → k ≤ N →
      dictLookup (dictUpdate (process_reports (init_progress N) reps) k v) i =
        if i = k then some v else dictLookup (process_reports (init_progress N) reps) i) := by
  have hmem : ∀ r ∈ reps, r.1 ∈ keysList N := fun r hr => (keysList_mem N r.1).mpr (h r hr)
  refine ⟨process_reports_total N reps h, ?_, ?_⟩
  · intro i h1 hN
    rw [init_progress_eq]
    exact dictLookup_map_mem _ _ _ ((keysList_mem N i).mpr ⟨h1, hN⟩)
  · intro k v i h1 hN
    have hk : k ∈ keysList N := (keysList_mem N k).mpr ⟨h1, hN⟩
    rw [init_progress_eq,
        process_reports_map (keysList N) (keysList_nodup N) reps (fun _ => 0) hmem,
        dictUpdate_map _ _ k v (keysList_nodup N) hk]
    by_cases hik : i = k
    · subst hik
      rw [if_pos rfl, dictLookup_map_mem _ _ _ hk, if_pos rfl]
    · rw [if_neg hik]
      by_cases hil : i ∈ keysList N
      · rw [dictLookup_map_mem _ _ _ hil, dictLookup_map_mem _ _ _ hil, if_neg hik]
      · rw [dictLookup_map_not_mem _ _ _ hil, dictLookup_map_not_mem _ _ _ hil]

/-- Witness for `display_progress_total`: two workers, three reports, worker 1
reporting twice (the second report overwrites the first). -/
theorem display_progress_total_witness :
    dictTotal (process_reports (init_progress 2) [(1, 5), (2, 7), (1, 9)]) =
      (∑ i in Finset.Icc 1 2, lastReported [(1, 5), (2, 7), (1, 9)] i) ∧
    dictLookup (init_progress 2) 1 = some 0 ∧
    dictLookup (dictUpdate (process_reports (init_progress 2) [(1, 5), (2, 7), (1, 9)]) 2 11) 2 =
      some 11 := by
  have h := display_progress_total 2 [(1, 5), (2, 7), (1, 9)] (by decide)
  refine ⟨h.1, h.2.1 1 (by decide) (by decide), ?_⟩
  rw [h.2.2 2 11 2 (by decide) (by decide)]
  simp

/-! ## Helper lemmas: the ideal report sequence -/

lemma idealReports_getElem (pid m j : Nat) (hj : j < m) :
    (idealReports pid m)[j]? = some (pid, (j + 1) * SHOW_AT_ONCE) := by
  simp [idealReports, List.getElem?_map, List.getElem?_range hj]

lemma idealReports_take (pid m t : Nat) :
    (idealReports pid m).take t = idealReports pid (min t m) := by
  simp [idealReports, ← List.map_take, List.take_range]

lemma idealReports_concat (pid s : Nat) :
    idealReports pid (s + 1) = idealReports pid s ++ [(pid, (s + 1) * SHOW_AT_ONCE)] := by
  simp [idealReports, List.range_succ]

lemma lastRep_ideal_self (pid : Nat) : ∀ s : Nat,
    lastReported (idealReports pid s) pid = s * SHOW_AT_ONCE := by
  intro s
  induction s with
  | zero => rfl
  | succ s ih =>
    rw [idealReports_concat]
    simp [lastReported, List.foldl_append]

lemma lastRep_ideal_other (pid i : Nat) (hne : i ≠ pid) : ∀ s : Nat,
    lastReported (idealReports pid s) i = 0 := by
  intro s
  induction s with
  | zero => rfl
  | succ s ih =>
    rw [idealReports_concat]
    have : ¬(pid = i) := fun h => hne h.symm
    simp only [lastReported, List.foldl_append] at ih ⊢
    simp [this, ih]

lemma ideal_total (N pid s : Nat) (h1 : 1 ≤ pid) (hN : pid ≤ N) :
    dictTotal (process_reports (init_progress N) (idealReports pid s)) =
      s * SHOW_AT_ONCE := by
  have hids : ∀ r ∈ idealReports pid s, 1 ≤ r.1 ∧ r.1 ≤ N := by
    intro r hr
    rcases List.mem_map.mp hr with ⟨j, _, rfl⟩
    exact ⟨h1, hN⟩
  rw [process_reports_total N _ hids]
  have hterm : ∀ i ∈ Finset.Icc 1 N, lastReported (idealReports pid s) i =
      if i = pid then s * SHOW_AT_ONCE else 0 := by
    intro i _
    by_cases hip : i = pid
    · subst hip; rw [if_pos rfl]; exact lastRep_ideal_self i s
    · rw [if_neg hip]; exact lastRep_ideal_other pid i hip s
  rw [Finset.sum_congr rfl hterm, Finset.sum_ite_eq' (Finset.Icc 1 N) pid
    (fun _ => s * SHOW_AT_ONCE), if_pos (Finset.mem_Icc.mpr ⟨h1, hN⟩)]

/-! ## Claim theorem: report monotonicity (C10) -/

/-- C10: an uncancelled worker's report sequence is the ideal sequence
`(pid, 10000), (pid, 20000), …`: the first report carries `SHOW_AT_ONCE`, each
later report is larger by exactly `SHOW_AT_ONCE`, the counts are strictly
increasing, and consequently the aggregator's rendered total over any growing
prefix of these reports never decreases. -/
theorem worker_reports_monotone :
    (∀ (sp ep : String) (pid : Nat) (kps : List Keypair),
      (find_wallet_worker sp ep pid kps).reports =
        idealReports pid (runLength sp ep kps / SHOW_AT_ONCE)) ∧
    (∀ pid m j, j < m → (idealReports pid m)[j]? = some (pid, (j + 1) * SHOW_AT_ONCE)) ∧
    (∀ pid m, 0 < m → (idealReports pid m)[0]? = some (pid, SHOW_AT_ONCE)) ∧
    (∀ pid m j, j + 1 < m →
      (((idealReports pid m)[j + 1]?).getD (0, 0)).2 =
        (((idealReports pid m)[j]?).getD (0, 0)).2 + SHOW_AT_ONCE) ∧
    (∀ pid m i j, i < j → j < m →
      (((idealReports pid m)[i]?).getD (0, 0)).2 <
        (((idealReports pid m)[j]?).getD (0, 0)).2) ∧
    (∀ N pid m t1 t2, 1 ≤ pid → pid ≤ N → t1 ≤ t2 →
      dictTotal (process_reports (init_progress N) ((idealReports pid m).take t1)) ≤
        dictTotal (process_reports (init_progress N) ((idealReports pid m).take t2))) := by
  refine ⟨worker_reports_ideal, idealReports_getElem, ?_, ?_, ?_, ?_⟩
  · intro pid m hm
    simpa using idealReports_getElem pid m 0 hm
  · intro pid m j hj
    rw [idealReports_getElem pid m (j + 1) hj, idealReports_getElem pid m j (by omega)]
    simp only [Option.getD_some, SHOW_AT_ONCE]
    omega
  · intro pid m i j hij hj
    rw [idealReports_getElem pid m i (by omega), idealReports_getElem pid m j hj]
    simp only [Option.getD_some, SHOW_AT_ONCE]
    omega
  · intro N pid m t1 t2 h1 hN ht
    rw [idealReports_take, idealReports_take, ideal_total N pid _ h1 hN,
        ideal_total N pid _ h1 hN]
    exact Nat.mul_le_mul_right _ (min_le_min ht (le_refl m))

/-- Witness for `worker_reports_monotone` at concrete indices. -/
theorem worker_reports_monotone_witness :
    (idealReports 1 2)[0]? = some (1, SHOW_AT_ONCE) ∧
    (((idealReports 1 2)[1]?).getD (0, 0)).2 =
      (((idealReports 1 2)[0]?).getD (0, 0)).2 + SHOW_AT_ONCE ∧
    (((idealReports 1 2)[0]?).getD (0, 0)).2 < (((idealReports 1 2)[1]?).getD (0, 0)).2 ∧
    dictTotal (process_reports (init_progress 1) ((idealReports 1 2).take 1)) ≤
      dictTotal (process_reports (init_progress 1) ((idealReports 1 2).take 2)) :=
  ⟨worker_reports_monotone.2.2.1 1 2 (by decide),
   worker_reports_monotone.2.2.2.1 1 2 0 (by decide),
   worker_reports_monotone.2.2.2.2.1 1 2 0 1 (by decide) (by decide),
   worker_reports_monotone.2.2.2.2.2 1 1 2 1 2 (by decide) (by decide) (by decide)⟩

/-! ## Helper lemmas: the coordinator -/

lemma contains_iff (l : List Nat) (a : Nat) : l.contains a = true ↔ a ∈ l := by
  simp [List.contains]

lemma flatten_map_nil (l : List Nat) (g : Nat → List Wallet) (h : ∀ i ∈ l, g i = []) :
    (l.map g).flatten = [] := by
  induction l with
  | nil => rfl
  | cons a t ih =>
    simp only [List.map_cons, List.flatten_cons, h a (List.mem_cons_self a t),
      List.nil_append]
    exact ih (fun i hi => h i (List.mem_cons_of_mem a hi))

/-- Anatomy of a successful search: it was not interrupted, and the returned
wallet is the first-match wallet of one of the spawned workers, which sent it
on the result queue exactly once. -/
lemma found_from_channel (sp ep : String) (np : Option Int) (cpu : Nat)
    (streams : Nat → List Keypair) (order : List Nat) (intr : Bool) (w : Wallet)
    (h : find_wallet_parallel sp ep np cpu streams order intr = SearchOutcome.found w) :
    intr = false ∧ ∃ i, i ∈ spawnedIds np cpu ∧
      ∃ kp, firstMatch sp ep (streams i) = some kp ∧ w = mkFoundWallet kp ∧
        (find_wallet_worker sp ep i (streams i)).sends = [w] := by
  cases intr with
  | true => simp [find_wallet_parallel] at h
  | false =>
    refine ⟨rfl, ?_⟩
    have h' : (match (resultChannel sp ep np cpu streams order).head? with
        | some w0 => SearchOutcome.found w0
        | none => SearchOutcome.blocked) = SearchOutcome.found w := by
      simpa [find_wallet_parallel] using h
    have hmem : w ∈ resultChannel sp ep np cpu streams order := by
      cases hcl : resultChannel sp ep np cpu streams order with
      | nil => rw [hcl] at h'; simp at h'
      | cons a t =>
        rw [hcl] at h'
        simp only [List.head?_cons] at h'
        injection h' with hw
        rw [← hw]
        exact List.mem_cons_self a t
    simp only [resultChannel] at hmem
    rcases List.mem_flatten.mp hmem with ⟨l', hl', hwl⟩
    rcases List.mem_map.mp hl' with ⟨i, hi, rfl⟩
    rcases List.mem_filter.mp hi with ⟨_, hcont⟩
    have hid : i ∈ spawnedIds np cpu := (contains_iff _ _).mp hcont
    rw [worker_sends_eq] at hwl
    cases hfm : firstMatch sp ep (streams i) with
    | none => rw [hfm] at hwl; simp at hwl
    | some kp =>
      rw [hfm] at hwl
      simp only [Option.elim_some, List.mem_singleton] at hwl
      refine ⟨i, hid, kp, hfm, hwl, ?_⟩
      rw [worker_sends_eq, hfm, hwl]
      rfl

/-! ## Claim theorems: the coordinator (C1, C4, C8, C9) -/

/-- C1: whenever `find_wallet_parallel` returns a wallet, the returned value
is a single wallet, its public address satisfies the match predicate (the
truthiness of `wallet_matches` is true), the wallet was sent on the result
queue exactly once by one of the spawned workers (which broke out of its loop
right after sending), and the outcome is not simultaneously a cancellation or
a block. -/
theorem search_found_correct (sp ep : String) (np : Option Int) (cpu : Nat)
    (streams : Nat → List Keypair) (order : List Nat) (intr : Bool) (w : Wallet)
    (h : find_wallet_parallel sp ep np cpu streams order intr = SearchOutcome.found w) :
    pyTruthy (wallet_matches w.public_key sp ep) = true ∧
    (∃ i, i ∈ spawnedIds np cpu ∧ (find_wallet_worker sp ep i (streams i)).sends = [w]) ∧
    (∀ w', find_wallet_parallel sp ep np cpu streams order intr = SearchOutcome.found w' →
      w' = w) ∧
    find_wallet_parallel sp ep np cpu streams order intr ≠ SearchOutcome.cancelled ∧
    find_wallet_parallel sp ep np cpu streams order intr ≠ SearchOutcome.blocked := by
  rcases found_from_channel sp ep np cpu streams order intr w h with
    ⟨hintr, i, hid, kp, hfm, rfl, hsends⟩
  refine ⟨?_, ⟨i, hid, hsends⟩, ?_, ?_, ?_⟩
  · have hp := List.find?_some hfm
    simpa [mkFoundWallet] using hp
  · intro w' h'
    rw [h] at h'
    injection h' with hw
    exact hw.symm
  · rw [h]; simp
  · rw [h]; simp

/-- Witness for `search_found_correct`: one worker whose first generated
keypair (the all-zero keypair, address `"111…1"`) matches the pattern with
start pattern `"1"`. -/
theorem search_found_correct_witness :
    pyTruthy (wallet_matches (mkFoundWallet kpZero).public_key ("1") ("")) = true ∧
    (∃ i, i ∈ spawnedIds (some 1) 1 ∧
      (find_wallet_worker ("1") ("") i ((fun _ => [kpZero]) i)).sends = [mkFoundWallet kpZero]) := by
  have h := search_found_correct ("1") ("") (some 1) 1 (fun _ => [kpZero]) [1] false
    (mkFoundWallet kpZero) rfl
  exact ⟨h.1, h.2.1⟩

/-- C4: the wallet returned by a successful search packages the matching
keypair as the code does: `private_key` is the base-58 encoding of the raw
64-byte keypair serialization (32-byte seed concatenated with the 32-byte
public key), and `public_key` is the base-58 textual address of the keypair's
public key. -/
theorem wallet_fields_encoding (sp ep : String) (np : Option Int) (cpu : Nat)
    (streams : Nat → List Keypair) (order : List Nat) (intr : Bool) (w : Wallet)
    (h : find_wallet_parallel sp ep np cpu streams order intr = SearchOutcome.found w) :
    ∃ i kp, i ∈ spawnedIds np cpu ∧ kp ∈ streams i ∧
      w.private_key = b58encode (keypairBytes kp) ∧
      keypairBytes kp = kp.seed ++ kp.pub ∧
      (keypairBytes kp).length = 64 ∧
      w.public_key = pubkeyStr kp ∧
      pubkeyStr kp = b58encode kp.pub := by
  rcases found_from_channel sp ep np cpu streams order intr w h with
    ⟨hintr, i, hid, kp, hfm, rfl, hsends⟩
  refine ⟨i, kp, hid, List.mem_of_find?_eq_some hfm, rfl, rfl, ?_, rfl, rfl⟩
  simp [keypairBytes, kp.seed_len, kp.pub_len]

/-- Witness for `wallet_fields_encoding` on the concrete successful search of
`search_found_correct_witness`. -/
theorem wallet_fields_encoding_witness :
    ∃ i kp, i ∈ spawnedIds (some 1) 1 ∧ kp ∈ (fun _ => [kpZero]) i ∧
      (mkFoundWallet kpZero).private_key = b58encode (keypairBytes kp) ∧
      keypairBytes kp = kp.seed ++ kp.pub ∧
      (keypairBytes kp).length = 64 ∧
      (mkFoundWallet kpZero).public_key = pubkeyStr kp ∧
      pubkeyStr kp = b58encode kp.pub :=
  wallet_fields_encoding ("1") ("") (some 1) 1 (fun _ => [kpZero]) [1] false
    (mkFoundWallet kpZero) rfl

/-- C8, counterexample: `worker_count = 0 < 1`, yet `find_wallet_parallel`
does not reject the configuration — there is no validation in the code.  It
spawns zero workers and then blocks forever in `result_queue.get()`. -/
theorem find_wallet_parallel_no_validation_cex :
    ((0 : Int) < 1) ∧
    find_wallet_parallel ("A") ("") (some 0) 4 (fun _ => []) [] false =
      SearchOutcome.blocked ∧
    find_wallet_parallel ("A") ("") (some 0) 4 (fun _ => []) [] false ≠
      SearchOutcome.configError ∧
    spawnedIds (some 0) 4 = [] :=
  ⟨by decide, rfl, by decide, rfl⟩

/-- C8, amended: `find_wallet_parallel` performs no `worker_count` validation
and can never produce a configuration error; for any `worker_count < 1` it
spawns zero workers (so no worker ever starts) and then, absent an interrupt,
blocks indefinitely on the empty result queue instead of rejecting the
configuration synchronously. -/
theorem find_wallet_parallel_no_validation (sp ep : String) (z : Int) (cpu : Nat)
    (streams : Nat → List Keypair) (order : List Nat) (hz : z < 1) :
    numWorkers (some z) cpu = 0 ∧
    spawnedIds (some z) cpu = [] ∧
    find_wallet_parallel sp ep (some z) cpu streams order false = SearchOutcome.blocked ∧
    (∀ intr, find_wallet_parallel sp ep (some z) cpu streams order intr ≠
      SearchOutcome.configError) := by
  have h0 : numWorkers (some z) cpu = 0 := by
    simp only [numWorkers]
    omega
  have hids : spawnedIds (some z) cpu = [] := by
    simp [spawnedIds, h0]
  have hchan : resultChannel sp ep (some z) cpu streams order = [] := by
    simp [resultChannel, hids, List.contains]
  refine ⟨h0, hids, by simp [find_wallet_parallel, hchan], ?_⟩
  intro intr
  cases intr <;> simp [find_wallet_parallel, hchan]

/-- Witness for `find_wallet_parallel_no_validation` at `worker_count = -3`. -/
theorem find_wallet_parallel_no_validation_witness :
    numWorkers (some (-3)) 4 = 0 ∧
    spawnedIds (some (-3)) 4 = [] ∧
    find_wallet_parallel ("A") ("") (some (-3)) 4 (fun _ => []) [3] false =
      SearchOutcome.blocked ∧
    (∀ intr, find_wallet_parallel ("A") ("") (some (-3)) 4 (fun _ => []) [3] intr ≠
      SearchOutcome.configError) :=
  find_wallet_parallel_no_validation ("A") ("") (-3) 4 (fun _ => []) [3] (by decide)

/-- C9, counterexample: an environment in which the only worker terminates
without ever producing a result (its stream yields a single non-matching
keypair).  The coordinator does not detect this and does not report a distinct
exhaustion error: it stays blocked in `result_queue.get()` forever. -/
theorem coordinator_no_exhaustion_cex :
    (find_wallet_worker ("A") ("") 1 [kpZero]).sends = [] ∧
    find_wallet_parallel ("A") ("") (some 1) 1 (fun _ => [kpZero]) [1] false =
      SearchOutcome.blocked ∧
    find_wallet_parallel ("A") ("") (some 1) 1 (fun _ => [kpZero]) [1] false ≠
      SearchOutcome.exhausted :=
  ⟨rfl, rfl, by decide⟩

/-- C9, amended: when every worker terminates without sending a result, the
coordinator — which calls `result_queue.get()` with no timeout and never
checks worker liveness — blocks indefinitely; no "search exhausted" outcome
exists anywhere in the code. -/
theorem coordinator_blocks_when_no_sends (sp ep : String) (np : Option Int) (cpu : Nat)
    (streams : Nat → List Keypair) (order : List Nat)
    (h : ∀ i, (find_wallet_worker sp ep i (streams i)).sends = []) :
    find_wallet_parallel sp ep np cpu streams order false = SearchOutcome.blocked ∧
    (∀ intr, find_wallet_parallel sp ep np cpu streams order intr ≠
      SearchOutcome.exhausted) := by
  have hchan : resultChannel sp ep np cpu streams order = [] := by
    simp only [resultChannel]
    exact flatten_map_nil _ _ (fun i _ => h i)
  refine ⟨by simp [find_wallet_parallel, hchan], ?_⟩
  intro intr
  cases intr <;> simp [find_wallet_parallel, hchan]

/-- Witness for `coordinator_blocks_when_no_sends`: two workers with empty
streams (they died before generating anything). -/
theorem coordinator_blocks_when_no_sends_witness :
    find_wallet_parallel ("A") ("") (some 2) 2 (fun _ => []) [1, 2] false =
      SearchOutcome.blocked ∧
    (∀ intr, find_wallet_parallel ("A") ("") (some 2) 2 (fun _ => []) [1, 2] intr ≠
      SearchOutcome.exhausted) :=
  coordinator_blocks_when_no_sends ("A") ("") (some 2) 2 (fun _ => []) [1, 2] (fun _ => rfl)
